import Mathlib

/-!
Verification of the simple-llama evaluation pipeline.

The development embeds the evaluation core of the repository:
`evaluate.py` (answer extraction via a regular-expression search and
majority voting), `model.py` (the retry loop of `OllamaModel.predict`)
and `benchmark.py` (the scoring loop of `Benchmark.run`).
Machine text is `String`/`List Char`, Python exceptions are `Except`,
and Python float arithmetic on scores is modelled exactly with `ℚ`.
-/

/-! ### evaluate.py : answer extraction -/

deriving instance DecidableEq for Except

/-- Error raised by `extract_single_answer` (class `AnswerExtractionError`). -/
inductive AnswerExtractionError
  | noAnswerFound
deriving DecidableEq, Repr

/-- The character class of the regex `\s` and of Python `str.strip()`
for ASCII text: space, tab, newline, carriage return, vertical tab, form feed. -/
def isSpaceChar (c : Char) : Bool :=
  c = ' ' || c = '\t' || c = '\n' || c = '\r' || c = '\x0b' || c = '\x0c'

/-- The character class `[A-F]` under `re.IGNORECASE`. -/
def isAnswerLetter (c : Char) : Bool :=
  ('A' ≤ c && c ≤ 'F') || ('a' ≤ c && c ≤ 'f')

/-- Case-insensitive character comparison used when matching the literal
part of the pattern under `re.IGNORECASE`. -/
def lowerEq (p c : Char) : Bool :=
  p.toLower = c.toLower

/-- Match the literal characters `ps` case-insensitively at the head of `cs`,
returning the remaining text on success. -/
def ciMatchLit : List Char → List Char → Option (List Char)
  | [], cs => some cs
  | _ :: _, [] => none
  | p :: ps, c :: cs => if lowerEq p c then ciMatchLit ps cs else none

/-- Greedy `\s*`: drop the maximal run of whitespace characters. -/
def skipSpaces : List Char → List Char
  | [] => []
  | c :: cs => if isSpaceChar c then skipSpaces cs else c :: cs

/-- The literal part of the pattern `Final Answer:\s*([A-F])`. -/
def finalAnswerLit : List Char :=
  String.toList ("Final Answer:")

/-- Try the regex `Final Answer:\s*([A-F])` (ignoring case) anchored at the
head of `cs`; on success return the character captured by group 1. -/
def matchAt (cs : List Char) : Option Char :=
  match ciMatchLit finalAnswerLit cs with
  | none => none
  | some rest =>
    match skipSpaces rest with
    | [] => none
    | c :: _ => if isAnswerLetter c then some c else none

/-- The search of `re.search`: try the pattern at each position from the left,
returning the first capture. -/
def searchAnswer : List Char → Option Char
  | [] => none
  | c :: cs =>
    match matchAt (c :: cs) with
    | some a => some a
    | none => searchAnswer cs

/-- Python `str.strip()` on a character list. -/
def stripChars (cs : List Char) : List Char :=
  ((cs.dropWhile isSpaceChar).reverse.dropWhile isSpaceChar).reverse

/-- Embedding of `extract_single_answer` (src/evaluate.py, lines 13-30):
`re.search` of `Final Answer:\s*([A-F])` with `re.IGNORECASE` over
`output.strip()`; on a match return group 1 uppercased, otherwise raise
`AnswerExtractionError`. -/
def extract_single_answer (output : String) : Except AnswerExtractionError String :=
  match searchAnswer (stripChars output.toList) with
  | none => Except.error AnswerExtractionError.noAnswerFound
  | some c => Except.ok (String.mk [c.toUpper])

/-- Embedding of `extract_multiple_answers` (src/evaluate.py, lines 33-51):
loop over the outputs, appending each successful extraction and absorbing
each `AnswerExtractionError`. -/
def extract_multiple_answers (outputs : List String) : List String :=
  outputs.foldl
    (fun valid_answers output =>
      match extract_single_answer output with
      | Except.ok answer => valid_answers ++ [answer]
      | Except.error _ => valid_answers)
    []

/-! ### evaluate.py : majority voting -/

/-- Embedding of `calculate_majority_vote` (src/evaluate.py, lines 54-68):
empty input returns `False`; otherwise the Python comparison
`answers.count(correct_answer) > len(answers) / 2`, with Python true
division modelled exactly in `ℚ`. -/
def calculate_majority_vote (answers : List String) (correct_answer : String) : Bool :=
  if answers.isEmpty then false
  else decide ((answers.count correct_answer : ℚ) > (answers.length : ℚ) / 2)

/-- The `ValueError` raised by `eval_majority_vote` when no answer could be
extracted (the spec calls it `NoValidAnswersError`). -/
inductive EvalError
  | noValidAnswers
deriving DecidableEq, Repr

/-- Embedding of `eval_majority_vote` (src/evaluate.py, lines 71-92):
extract all answers, raise when none were extracted, otherwise return
the majority result together with the extracted answers. -/
def eval_majority_vote (model_outputs : List String) (answer : String) :
    Except EvalError (Bool × List String) :=
  let extracted_answers := extract_multiple_answers model_outputs
  if extracted_answers.isEmpty then Except.error EvalError.noValidAnswers
  else Except.ok (calculate_majority_vote extracted_answers answer, extracted_answers)

/-! ### Specification-side description of the pattern

An occurrence of the pattern `Final Answer:\s*([A-F])` (ignoring case)
inside a text, written declaratively: a case-insensitive copy of the
literal, then a run of whitespace, then one answer letter. These
predicates are the specification vocabulary against which the searcher
above is verified. -/

/-- `mid` is exactly one occurrence of the pattern, capturing `c`. -/
def IsOccurrence (mid : List Char) (c : Char) : Prop :=
  ∃ lit ws, mid = lit ++ ws ++ [c]
    ∧ lit.map Char.toLower = finalAnswerLit.map Char.toLower
    ∧ (∀ w ∈ ws, isSpaceChar w = true)
    ∧ isAnswerLetter c = true

/-- The pattern occurs in `cs` starting at index `i`, capturing `c`. -/
def OccursAt (cs : List Char) (i : Nat) (c : Char) : Prop :=
  ∃ pre mid post, cs = pre ++ mid ++ post ∧ pre.length = i ∧ IsOccurrence mid c

/-- The text of `s` contains at least one occurrence of the pattern. -/
def HasAnswerPattern (s : String) : Prop :=
  ∃ i c, OccursAt s.toList i c

/-! ### Character-class facts -/

/-- Characters are determined by their code point. -/
theorem char_eq_of_toNat {c d : Char} (h : c.toNat = d.toNat) : c = d :=
  Char.ext (UInt32.ext h)

/-- Uppercasing a matched answer letter always lands in the set A-F. -/
theorem answer_letter_toUpper {c : Char} (h : isAnswerLetter c = true) :
    c.toUpper = 'A' ∨ c.toUpper = 'B' ∨ c.toUpper = 'C' ∨ c.toUpper = 'D'
      ∨ c.toUpper = 'E' ∨ c.toUpper = 'F' := by
  simp [isAnswerLetter] at h
  have hn : (65 ≤ c.toNat ∧ c.toNat ≤ 70) ∨ (97 ≤ c.toNat ∧ c.toNat ≤ 102) := by
    rcases h with ⟨h1, h2⟩ | ⟨h1, h2⟩
    · rw [Char.le_def] at h1 h2
      exact Or.inl ⟨h1, h2⟩
    · rw [Char.le_def] at h1 h2
      exact Or.inr ⟨h1, h2⟩
  have hc : c = 'A' ∨ c = 'B' ∨ c = 'C' ∨ c = 'D' ∨ c = 'E' ∨ c = 'F'
      ∨ c = 'a' ∨ c = 'b' ∨ c = 'c' ∨ c = 'd' ∨ c = 'e' ∨ c = 'f' := by
    rcases hn with ⟨h1, h2⟩ | ⟨h1, h2⟩ <;> interval_cases hq : c.toNat <;>
      first
        | exact Or.inl (char_eq_of_toNat hq)
        | exact Or.inr (Or.inl (char_eq_of_toNat hq))
        | exact Or.inr (Or.inr (Or.inl (char_eq_of_toNat hq)))
        | exact Or.inr (Or.inr (Or.inr (Or.inl (char_eq_of_toNat hq))))
        | exact Or.inr (Or.inr (Or.inr (Or.inr (Or.inl (char_eq_of_toNat hq)))))
        | exact Or.inr (Or.inr (Or.inr (Or.inr (Or.inr (Or.inl (char_eq_of_toNat hq))))))
        | exact Or.inr (Or.inr (Or.inr (Or.inr (Or.inr (Or.inr (Or.inl (char_eq_of_toNat hq)))))))
        | exact Or.inr (Or.inr (Or.inr (Or.inr (Or.inr (Or.inr (Or.inr (Or.inl (char_eq_of_toNat hq))))))))
        | exact Or.inr (Or.inr (Or.inr (Or.inr (Or.inr (Or.inr (Or.inr (Or.inr (Or.inl (char_eq_of_toNat hq)))))))))
        | exact Or.inr (Or.inr (Or.inr (Or.inr (Or.inr (Or.inr (Or.inr (Or.inr (Or.inr (Or.inl (char_eq_of_toNat hq))))))))))
        | exact Or.inr (Or.inr (Or.inr (Or.inr (Or.inr (Or.inr (Or.inr (Or.inr (Or.inr (Or.inr (Or.inl (char_eq_of_toNat hq)))))))))))
        | exact Or.inr (Or.inr (Or.inr (Or.inr (Or.inr (Or.inr (Or.inr (Or.inr (Or.inr (Or.inr (Or.inr (char_eq_of_toNat hq)))))))))))
  rcases hc with rfl | rfl | rfl | rfl | rfl | rfl | rfl | rfl | rfl | rfl | rfl | rfl <;> decide

/-- An answer letter is never a whitespace character. -/
theorem isSpaceChar_cases {c : Char} (h : isSpaceChar c = true) :
    c = ' ' ∨ c = '\t' ∨ c = '\n' ∨ c = '\r' ∨ c = '\x0b' ∨ c = '\x0c' := by
  simp [isSpaceChar] at h
  tauto

/-- An answer letter is never a whitespace character. -/
theorem answer_letter_not_space {c : Char} (h : isAnswerLetter c = true) :
    isSpaceChar c = false := by
  rcases Bool.eq_false_or_eq_true (isSpaceChar c) with ht | hf
  · exfalso
    rcases isSpaceChar_cases ht with rfl | rfl | rfl | rfl | rfl | rfl <;>
      exact absurd h (by decide)
  · exact hf

/-- The pattern can never match starting at a whitespace character. -/
theorem space_char_not_match {w : Char} (hw : isSpaceChar w = true) (cs : List Char) :
    matchAt (w :: cs) = none := by
  rcases isSpaceChar_cases hw with rfl | rfl | rfl | rfl | rfl | rfl <;> rfl

/-! ### Soundness and completeness of the literal matcher -/

/-- Whatever `ciMatchLit` consumes is a case-insensitive copy of the literal. -/
theorem ciMatchLit_sound : ∀ (ps cs rest : List Char), ciMatchLit ps cs = some rest →
    ∃ lit, cs = lit ++ rest ∧ lit.map Char.toLower = ps.map Char.toLower := by
  intro ps
  induction ps with
  | nil =>
    intro cs rest h
    simp [ciMatchLit] at h
    exact ⟨[], by simp [h], by simp⟩
  | cons p ps ih =>
    intro cs rest h
    cases cs with
    | nil => simp [ciMatchLit] at h
    | cons c cs =>
      rw [ciMatchLit] at h
      by_cases hpc : lowerEq p c = true
      · rw [if_pos hpc] at h
        obtain ⟨lit, hcs, hmap⟩ := ih cs rest h
        refine ⟨c :: lit, by simp [hcs], ?_⟩
        simp [lowerEq] at hpc
        simp [hmap, hpc]
      · rw [if_neg hpc] at h
        cases h

/-- A case-insensitive copy of the literal is always consumed. -/
theorem ciMatchLit_complete : ∀ (ps lit rest : List Char),
    lit.map Char.toLower = ps.map Char.toLower →
    ciMatchLit ps (lit ++ rest) = some rest := by
  intro ps
  induction ps with
  | nil =>
    intro lit rest h
    simp at h
    simp [h, ciMatchLit]
  | cons p ps ih =>
    intro lit rest h
    cases lit with
    | nil => simp at h
    | cons c lit =>
      simp at h
      rw [List.cons_append, ciMatchLit, if_pos (by simp [lowerEq, h.1])]
      exact ih lit rest h.2

/-! ### Facts about the whitespace skipper -/

/-- Every list splits as skipped whitespace plus the remainder. -/
theorem skipSpaces_decomp : ∀ (cs : List Char),
    ∃ ws, (∀ w ∈ ws, isSpaceChar w = true) ∧ cs = ws ++ skipSpaces cs := by
  intro cs
  induction cs with
  | nil => exact ⟨[], by simp, by simp [skipSpaces]⟩
  | cons c cs ih =>
    by_cases hc : isSpaceChar c = true
    · obtain ⟨ws, hws, hcs⟩ := ih
      refine ⟨c :: ws, ?_, ?_⟩
      · intro w hw
        rcases List.mem_cons.mp hw with rfl | hw
        · exact hc
        · exact hws w hw
      · rw [skipSpaces, if_pos hc, List.cons_append]
        exact congrArg (c :: ·) hcs
    · exact ⟨[], by simp, by rw [skipSpaces, if_neg hc]; simp⟩

/-- Skipping stops at a non-whitespace character. -/
theorem skipSpaces_head_not_space : ∀ (cs : List Char) {c cs'},
    skipSpaces cs = c :: cs' → isSpaceChar c = false := by
  intro cs
  induction cs with
  | nil => intro c cs' h; simp [skipSpaces] at h
  | cons x xs ih =>
    intro c cs' h
    by_cases hx : isSpaceChar x = true
    · rw [skipSpaces, if_pos hx] at h
      exact ih h
    · rw [skipSpaces, if_neg hx] at h
      cases h
      simpa using hx

/-- Leading whitespace is skipped over. -/
theorem skipSpaces_append_spaces : ∀ (ws : List Char),
    (∀ w ∈ ws, isSpaceChar w = true) → ∀ rest, skipSpaces (ws ++ rest) = skipSpaces rest := by
  intro ws
  induction ws with
  | nil => intro _ rest; simp
  | cons w ws ih =>
    intro h rest
    rw [List.cons_append, skipSpaces, if_pos (h w (by simp))]
    exact ih (fun x hx => h x (by simp [hx])) rest

/-- Skipping does nothing at a non-whitespace head. -/
theorem skipSpaces_not_space {c : Char} (h : isSpaceChar c = false) (cs : List Char) :
    skipSpaces (c :: cs) = c :: cs := by
  rw [skipSpaces, if_neg (by simp [h])]

/-! ### Soundness and completeness of the anchored matcher -/

/-- The anchored matcher never matches an empty text. -/
theorem matchAt_nil : matchAt [] = none := rfl

/-- An occurrence placed at the head of the text makes the anchored matcher
capture exactly its letter. -/
theorem matchAt_complete {lit ws : List Char} {c : Char} (rest : List Char)
    (hlit : lit.map Char.toLower = finalAnswerLit.map Char.toLower)
    (hws : ∀ w ∈ ws, isSpaceChar w = true)
    (hc : isAnswerLetter c = true) :
    matchAt (lit ++ ws ++ c :: rest) = some c := by
  simp only [matchAt, List.append_assoc,
    ciMatchLit_complete finalAnswerLit lit (ws ++ c :: rest) hlit,
    skipSpaces_append_spaces ws hws,
    skipSpaces_not_space (answer_letter_not_space hc)]
  simp [hc]

/-- A successful anchored match exhibits an occurrence at the head of the text. -/
theorem matchAt_sound {cs : List Char} {a : Char} (h : matchAt cs = some a) :
    ∃ lit ws rest, cs = lit ++ ws ++ a :: rest
      ∧ lit.map Char.toLower = finalAnswerLit.map Char.toLower
      ∧ (∀ w ∈ ws, isSpaceChar w = true)
      ∧ isAnswerLetter a = true := by
  cases h1 : ciMatchLit finalAnswerLit cs with
  | none => simp only [matchAt, h1] at h; cases h
  | some rest0 =>
    obtain ⟨lit, hcs, hmap⟩ := ciMatchLit_sound finalAnswerLit cs rest0 h1
    cases h2 : skipSpaces rest0 with
    | nil => simp only [matchAt, h1, h2] at h; cases h
    | cons c tail =>
      simp only [matchAt, h1, h2] at h
      by_cases hc : isAnswerLetter c = true
      · rw [if_pos hc] at h
        injection h with ha
        subst ha
        obtain ⟨ws, hws, hdecomp⟩ := skipSpaces_decomp rest0
        refine ⟨lit, ws, tail, ?_, hmap, hws, hc⟩
        rw [hcs, hdecomp, h2, List.append_assoc]
      · rw [if_neg hc] at h
        cases h

/-! ### The left-to-right search -/

/-- A successful search is an anchored match at some position, and at the
first position where any anchored match exists. -/
theorem searchAnswer_sound_idx : ∀ (cs : List Char) {a : Char},
    searchAnswer cs = some a →
    ∃ i, matchAt (cs.drop i) = some a ∧ ∀ j < i, matchAt (cs.drop j) = none := by
  intro cs
  induction cs with
  | nil => intro a h; simp [searchAnswer] at h
  | cons x xs ih =>
    intro a h
    rw [searchAnswer] at h
    cases hm : matchAt (x :: xs) with
    | some b =>
      rw [hm] at h
      injection h with hb
      subst hb
      exact ⟨0, by simpa using hm, fun j hj => absurd hj (by omega)⟩
    | none =>
      rw [hm] at h
      obtain ⟨i, h1, h2⟩ := ih h
      refine ⟨i + 1, by simpa using h1, ?_⟩
      intro j hj
      cases j with
      | zero => simpa using hm
      | succ j' =>
        rw [List.drop_succ_cons]
        exact h2 j' (by omega)

/-- If any position admits an anchored match, the search succeeds. -/
theorem searchAnswer_complete_idx : ∀ (cs : List Char) (i : Nat) {a : Char},
    matchAt (cs.drop i) = some a → ∃ b, searchAnswer cs = some b := by
  intro cs
  induction cs with
  | nil =>
    intro i a h
    rw [List.drop_nil, matchAt_nil] at h
    cases h
  | cons x xs ih =>
    intro i a h
    cases i with
    | zero =>
      rw [List.drop_zero] at h
      rw [searchAnswer, h]
      exact ⟨a, rfl⟩
    | succ i' =>
      rw [searchAnswer]
      cases hm : matchAt (x :: xs) with
      | some b => exact ⟨b, rfl⟩
      | none =>
        rw [List.drop_succ_cons] at h
        exact ih i' h

/-! ### Whitespace padding does not affect the search -/

/-- A text of only whitespace characters has no match anywhere. -/
theorem searchAnswer_all_space : ∀ (cs : List Char),
    (∀ w ∈ cs, isSpaceChar w = true) → searchAnswer cs = none := by
  intro cs
  induction cs with
  | nil => intro _; rfl
  | cons x xs ih =>
    intro h
    rw [searchAnswer, space_char_not_match (h x (by simp)) xs]
    exact ih (fun w hw => h w (by simp [hw]))

/-- Leading whitespace does not affect the search. -/
theorem searchAnswer_space_left : ∀ (l : List Char),
    (∀ w ∈ l, isSpaceChar w = true) → ∀ m, searchAnswer (l ++ m) = searchAnswer m := by
  intro l
  induction l with
  | nil => intro _ m; simp
  | cons w l ih =>
    intro h m
    rw [List.cons_append, searchAnswer, space_char_not_match (h w (by simp)) (l ++ m)]
    exact ih (fun x hx => h x (by simp [hx])) m

/-- Trailing whitespace does not affect the anchored matcher. -/
theorem matchAt_space_right {r : List Char} (hr : ∀ w ∈ r, isSpaceChar w = true)
    (s : List Char) : matchAt (s ++ r) = matchAt s := by
  cases hs : matchAt s with
  | some c =>
    obtain ⟨lit, ws, rest, hdecomp, hlit, hws, hc⟩ := matchAt_sound hs
    rw [hdecomp]
    have hshape : (lit ++ ws ++ c :: rest) ++ r = lit ++ ws ++ c :: (rest ++ r) := by
      simp
    rw [hshape]
    exact matchAt_complete (rest ++ r) hlit hws hc
  | none =>
    cases hsr : matchAt (s ++ r) with
    | none => rfl
    | some c =>
      exfalso
      obtain ⟨lit, ws, rest, hdecomp, hlit, hws, hc⟩ := matchAt_sound hsr
      have hdecomp' : s ++ r = (lit ++ ws) ++ c :: rest := by
        rw [hdecomp, List.append_assoc]
      by_cases hlen : (lit ++ ws).length + 1 ≤ s.length
      · have htake1 : (s ++ r).take ((lit ++ ws).length + 1) = s.take ((lit ++ ws).length + 1) :=
          List.take_append_of_le_length hlen
        have htake2 : ((lit ++ ws) ++ c :: rest).take ((lit ++ ws).length + 1)
            = (lit ++ ws) ++ [c] := by
          rw [List.take_append_eq_append_take, List.take_of_length_le (by simp)]
          simp
        have hsplit : s = ((lit ++ ws) ++ [c]) ++ s.drop ((lit ++ ws).length + 1) := by
          conv_lhs => rw [← List.take_append_drop ((lit ++ ws).length + 1) s]
          rw [← htake1, hdecomp', htake2]
        have hsome : matchAt s = some c := by
          rw [hsplit]
          have hshape : ((lit ++ ws) ++ [c]) ++ s.drop ((lit ++ ws).length + 1)
              = lit ++ ws ++ c :: s.drop ((lit ++ ws).length + 1) := by
            simp
          rw [hshape]
          exact matchAt_complete _ hlit hws hc
        rw [hsome] at hs
        cases hs
      · push_neg at hlen
        have hsle : s.length ≤ (lit ++ ws).length := by omega
        have hget : (s ++ r)[(lit ++ ws).length]? = some c := by
          rw [hdecomp', List.getElem?_append_right (le_refl (lit ++ ws).length)]
          simp
        rw [List.getElem?_append_right hsle] at hget
        have hspace := hr c (List.getElem?_mem hget)
        rw [answer_letter_not_space hc] at hspace
        cases hspace

/-- Trailing whitespace does not affect the search. -/
theorem searchAnswer_space_right {r : List Char} (hr : ∀ w ∈ r, isSpaceChar w = true) :
    ∀ m, searchAnswer (m ++ r) = searchAnswer m := by
  intro m
  induction m with
  | nil =>
    rw [List.nil_append, searchAnswer_all_space r hr]
    rfl
  | cons x xs ih =>
    rw [List.cons_append, searchAnswer, searchAnswer]
    have hma : matchAt (x :: (xs ++ r)) = matchAt (x :: xs) := by
      have hshape : x :: (xs ++ r) = (x :: xs) ++ r := by simp
      rw [hshape]
      exact matchAt_space_right hr (x :: xs)
    rw [hma]
    cases matchAt (x :: xs) with
    | some a => rfl
    | none => exact ih

/-- Stripping splits the text into leading whitespace, the stripped core
and trailing whitespace. -/
theorem stripChars_decomp (cs : List Char) :
    ∃ l r, (∀ w ∈ l, isSpaceChar w = true) ∧ (∀ w ∈ r, isSpaceChar w = true)
      ∧ cs = l ++ stripChars cs ++ r := by
  refine ⟨cs.takeWhile isSpaceChar,
    ((cs.dropWhile isSpaceChar).reverse.takeWhile isSpaceChar).reverse, ?_, ?_, ?_⟩
  · intro w hw
    exact List.mem_takeWhile_imp hw
  · intro w hw
    rw [List.mem_reverse] at hw
    exact List.mem_takeWhile_imp hw
  · conv_lhs => rw [← List.takeWhile_append_dropWhile isSpaceChar cs]
    rw [List.append_assoc]
    congr 1
    rw [stripChars, ← List.reverse_append, List.takeWhile_append_dropWhile,
      List.reverse_reverse]

/-- The strip performed by `extract_single_answer` does not change the
search result. -/
theorem searchAnswer_stripChars (cs : List Char) :
    searchAnswer (stripChars cs) = searchAnswer cs := by
  obtain ⟨l, r, hl, hr, hcs⟩ := stripChars_decomp cs
  conv_rhs => rw [hcs]
  rw [searchAnswer_space_right hr, searchAnswer_space_left l hl]

/-! ### Occurrences versus the matcher -/

/-- Anchored matches at index `i` are exactly occurrences at index `i`. -/
theorem occursAt_iff_matchAt {cs : List Char} {i : Nat} {c : Char} :
    OccursAt cs i c ↔ matchAt (cs.drop i) = some c ∧ i ≤ cs.length := by
  constructor
  · rintro ⟨pre, mid, post, hcs, hpre, lit, ws, hmid, hlit, hws, hc⟩
    constructor
    · have hdrop : cs.drop i = mid ++ post := by
        rw [hcs, ← hpre, List.append_assoc, List.drop_left]
      rw [hdrop, hmid]
      have hshape : (lit ++ ws ++ [c]) ++ post = lit ++ ws ++ c :: post := by
        simp
      rw [hshape]
      exact matchAt_complete post hlit hws hc
    · rw [hcs, ← hpre]
      simp only [List.length_append]
      omega
  · rintro ⟨hm, hle⟩
    obtain ⟨lit, ws, rest, hdecomp, hlit, hws, hc⟩ := matchAt_sound hm
    refine ⟨cs.take i, lit ++ ws ++ [c], rest, ?_, ?_, lit, ws, rfl, hlit, hws, hc⟩
    · conv_lhs => rw [← List.take_append_drop i cs]
      rw [hdecomp]
      simp
    · rw [List.length_take]
      omega

/-- The searcher succeeds exactly on texts containing the pattern. -/
theorem hasAnswerPattern_iff {s : String} :
    HasAnswerPattern s ↔ (searchAnswer s.toList).isSome = true := by
  constructor
  · rintro ⟨i, c, hocc⟩
    obtain ⟨hm, _⟩ := occursAt_iff_matchAt.mp hocc
    obtain ⟨b, hb⟩ := searchAnswer_complete_idx s.toList i hm
    rw [hb]
    rfl
  · intro h
    cases hb : searchAnswer s.toList with
    | none => rw [hb] at h; cases h
    | some a =>
      obtain ⟨i, h1, _⟩ := searchAnswer_sound_idx s.toList hb
      have hle : i ≤ s.toList.length := by
        by_contra hgt
        push_neg at hgt
        rw [List.drop_eq_nil_of_le (le_of_lt hgt), matchAt_nil] at h1
        cases h1
      exact ⟨i, a, occursAt_iff_matchAt.mpr ⟨h1, hle⟩⟩

/-! ### model.py : the retry loop of OllamaModel.predict

A single call of `_make_chat_request` either returns content or raises
(a transport error from `ollama.chat`, or `EmptyResponseError` from
`_validate_response`). The backend is nondeterministic, so one run of
`predict` is modelled against an oracle giving the outcome of the chat
request made on each loop iteration. The second component of the result
counts how many chat requests the loop performed. -/

/-- An error of one `_make_chat_request` call: an empty or invalid
response, or any other exception of the underlying API call. -/
inductive ChatError
  | emptyResponse
  | transport (msg : String)
deriving DecidableEq, Repr

/-- Outcome of `OllamaModel.predict`: the returned content, or
`MaxRetriesExceededError` carrying the chained cause (`raise ... from e`),
which is absent for the fall-through raise after the loop. -/
inductive PredictOutcome
  | success (content : String)
  | maxRetriesExceeded (cause : Option ChatError)
deriving DecidableEq, Repr

/-- Embedding of the `for attempt in range(max_retries)` loop of
`OllamaModel.predict` (src/model.py, lines 140-154), over the list of
remaining attempt indices; returns the outcome plus the number of chat
requests made. -/
def predictLoop (chatResult : Nat → Except ChatError String) (max_retries : Nat) :
    List Nat → PredictOutcome × Nat
  | [] => (PredictOutcome.maxRetriesExceeded none, 0)
  | attempt :: restAttempts =>
    match chatResult attempt with
    | Except.ok content => (PredictOutcome.success content, 1)
    | Except.error e =>
      if attempt = max_retries - 1 then (PredictOutcome.maxRetriesExceeded (some e), 1)
      else
        let r := predictLoop chatResult max_retries restAttempts
        (r.1, r.2 + 1)

/-- Embedding of `OllamaModel.predict` (src/model.py, lines 126-154),
run against the oracle `chatResult`. -/
def predict (chatResult : Nat → Except ChatError String) (max_retries : Nat) :
    PredictOutcome × Nat :=
  predictLoop chatResult max_retries (List.range max_retries)

/-! ### benchmark.py : the scoring loop of Benchmark.run

Responses come from `self.model.predict(question["prompt"])`; one run is
modelled against an oracle `model` mapping the prompt and the index of
the call to the returned text (the run under scrutiny is one where the
needed predictions returned). Python exceptions escaping `run` are the
`Except.error` results, and the float score arithmetic is exact in `ℚ`,
with Python's division-by-zero made explicit. -/

/-- A benchmark question (the `Question` TypedDict of src/benchmark.py). -/
structure Question where
  question_id : Int
  prompt : String
  answer : String
deriving DecidableEq, Repr

/-- An error escaping `Benchmark.run`: the `ValueError` of
`eval_majority_vote`, or Python's `ZeroDivisionError`. -/
inductive RunError
  | noValidAnswers
  | zeroDivision
deriving DecidableEq, Repr

/-- How an error of `eval_majority_vote` surfaces out of `Benchmark.run`. -/
def EvalError.toRunError : EvalError → RunError
  | EvalError.noValidAnswers => RunError.noValidAnswers

/-- Embedding of `Benchmark._collect_responses` (src/benchmark.py,
lines 133-144): `num_responses` sequential `predict` calls on the prompt. -/
def Benchmark.collect_responses (model : String → Nat → String) (num_responses : Nat)
    (question : Question) : List String :=
  (List.range num_responses).map (fun r => model question.prompt r)

/-- Embedding of `Benchmark._evaluate_responses` (src/benchmark.py,
lines 146-154): evaluate the majority vote and score 1 or 0. -/
def Benchmark.evaluate_responses (responses : List String) (question : Question) :
    Except EvalError Nat :=
  match eval_majority_vote responses question.answer with
  | Except.error e => Except.error e
  | Except.ok (result, _) => Except.ok (if result then 1 else 0)

/-- Embedding of `Benchmark._process_question` (src/benchmark.py,
lines 126-131). -/
def Benchmark.process_question (model : String → Nat → String) (num_responses : Nat)
    (question : Question) : Except EvalError Nat :=
  Benchmark.evaluate_responses (Benchmark.collect_responses model num_responses question)
    question

/-- The `sum(self._process_question(question) for question in ...)` of
`Benchmark.run`: sequential, aborting at the first raised error. -/
def Benchmark.total_score (model : String → Nat → String) (num_responses : Nat) :
    List Question → Except EvalError Nat
  | [] => Except.ok 0
  | question :: rest =>
    match Benchmark.process_question model num_responses question with
    | Except.error e => Except.error e
    | Except.ok s =>
      match Benchmark.total_score model num_responses rest with
      | Except.error e => Except.error e
      | Except.ok srest => Except.ok (s + srest)

/-- Embedding of `Benchmark.run` (src/benchmark.py, lines 113-124):
`final_score = (total_score / len(self.benchmark_data)) * 100`, where the
Python division raises `ZeroDivisionError` on an empty question list. -/
def Benchmark.run (model : String → Nat → String) (num_responses : Nat)
    (benchmark_data : List Question) : Except RunError ℚ :=
  match Benchmark.total_score model num_responses benchmark_data with
  | Except.error e => Except.error e.toRunError
  | Except.ok ts =>
    if benchmark_data.length = 0 then Except.error RunError.zeroDivision
    else Except.ok ((ts : ℚ) / (benchmark_data.length : ℚ) * 100)

/-- Whether the majority vote for one question comes out correct, given
the oracle of model responses: the score contribution of the question is
1 exactly when this holds. -/
def Benchmark.question_passes (model : String → Nat → String) (num_responses : Nat)
    (question : Question) : Bool :=
  calculate_majority_vote
    (extract_multiple_answers (Benchmark.collect_responses model num_responses question))
    question.answer

/-! ### Helper lemmas for the claim theorems -/

/-- The accumulating loop of `extract_multiple_answers` is a `filterMap`. -/
theorem extract_multiple_answers_foldl_aux (outputs : List String) :
    ∀ acc : List String,
      outputs.foldl
        (fun valid_answers output =>
          match extract_single_answer output with
          | Except.ok answer => valid_answers ++ [answer]
          | Except.error _ => valid_answers)
        acc
      = acc ++ outputs.filterMap (fun o => (extract_single_answer o).toOption) := by
  induction outputs with
  | nil => intro acc; simp
  | cons o os ih =>
    intro acc
    rw [List.foldl_cons, List.filterMap_cons]
    cases h : extract_single_answer o with
    | ok a => simp only [h, Except.toOption, ih, List.append_assoc, List.singleton_append]
    | error e => simp only [h, Except.toOption, ih]

/-- `extract_multiple_answers` keeps exactly the successful extractions,
in input order. -/
theorem extract_multiple_answers_eq (outputs : List String) :
    extract_multiple_answers outputs
      = outputs.filterMap (fun o => (extract_single_answer o).toOption) := by
  rw [extract_multiple_answers, extract_multiple_answers_foldl_aux outputs []]
  rfl

/-- When every attempt fails, the retry loop over `range' s k` makes `k`
chat calls and surfaces the error of the final attempt. -/
theorem predictLoop_all_fail (chatResult : Nat → Except ChatError String)
    (max_retries : Nat) :
    ∀ (k s : Nat), s + k = max_retries → 1 ≤ k →
      (∀ i, s ≤ i → i < max_retries → ∃ e, chatResult i = Except.error e) →
      ∃ e, chatResult (max_retries - 1) = Except.error e
        ∧ predictLoop chatResult max_retries (List.range' s k)
            = (PredictOutcome.maxRetriesExceeded (some e), k) := by
  intro k
  induction k with
  | zero => intro s _ h1 _; omega
  | succ k ih =>
    intro s hs _ hall
    obtain ⟨e, he⟩ := hall s (le_refl s) (by omega)
    cases k with
    | zero =>
      have hsm : s = max_retries - 1 := by omega
      subst hsm
      exact ⟨e, he, by simp [List.range', predictLoop, he]⟩
    | succ k' =>
      have hne : ¬ (s = max_retries - 1) := by omega
      obtain ⟨e2, he2, hrec⟩ := ih (s + 1) (by omega) (by omega)
        (fun i hi hilt => hall i (by omega) hilt)
      refine ⟨e2, he2, ?_⟩
      have hstep : predictLoop chatResult max_retries (List.range' s (k' + 1 + 1))
          = ((predictLoop chatResult max_retries (List.range' (s + 1) (k' + 1))).1,
             (predictLoop chatResult max_retries (List.range' (s + 1) (k' + 1))).2 + 1) := by
        rw [show List.range' s (k' + 1 + 1) = s :: List.range' (s + 1) (k' + 1) from rfl]
        simp only [predictLoop, he]
        rw [if_neg hne]
      rw [hstep, hrec]

/-- When every per-question extraction yields something, the score sum is
the count of questions whose majority vote passes. -/
theorem total_score_all_ok (model : String → Nat → String) (num_responses : Nat) :
    ∀ qs : List Question,
      (∀ q ∈ qs,
        extract_multiple_answers (Benchmark.collect_responses model num_responses q) ≠ []) →
      Benchmark.total_score model num_responses qs
        = Except.ok (qs.countP (fun q => Benchmark.question_passes model num_responses q)) := by
  intro qs
  induction qs with
  | nil => intro _; rfl
  | cons q qs ih =>
    intro h
    have hne := h q (by simp)
    have hq : Benchmark.process_question model num_responses q
        = Except.ok (if Benchmark.question_passes model num_responses q then 1 else 0) := by
      simp [Benchmark.process_question, Benchmark.evaluate_responses, eval_majority_vote,
        List.isEmpty_iff, hne, Benchmark.question_passes]
    rw [List.countP_cons]
    simp only [Benchmark.total_score, hq, ih (fun q' hq' => h q' (by simp [hq']))]
    rcases Bool.eq_false_or_eq_true (Benchmark.question_passes model num_responses q)
      with hp | hp <;> simp [hp, Nat.add_comm]

/-- A question whose extraction comes up empty turns the whole score sum
into the no-valid-answers error. -/
theorem total_score_error_of_wipeout (model : String → Nat → String) (num_responses : Nat) :
    ∀ qs : List Question,
      (∃ q ∈ qs,
        extract_multiple_answers (Benchmark.collect_responses model num_responses q) = []) →
      Benchmark.total_score model num_responses qs = Except.error EvalError.noValidAnswers := by
  intro qs
  induction qs with
  | nil => rintro ⟨q, hq, _⟩; simp at hq
  | cons q qs ih =>
    rintro ⟨q0, hmem, hq0⟩
    rcases List.mem_cons.mp hmem with rfl | hmem'
    · have hp : Benchmark.process_question model num_responses q0
          = Except.error EvalError.noValidAnswers := by
        simp [Benchmark.process_question, Benchmark.evaluate_responses, eval_majority_vote, hq0]
      simp [Benchmark.total_score, hp]
    · cases hp : Benchmark.process_question model num_responses q with
      | error e =>
        cases e
        simp [Benchmark.total_score, hp]
      | ok s =>
        simp [Benchmark.total_score, hp, ih ⟨q0, hmem', hq0⟩]

/-- The rational comparison of `calculate_majority_vote` on a non-empty
list is the integer strict-majority test. -/
theorem majority_vote_iff (answers : List String) (correct_answer : String)
    (h : answers ≠ []) :
    calculate_majority_vote answers correct_answer = true ↔
      2 * answers.count correct_answer > answers.length := by
  rw [calculate_majority_vote, if_neg (by simp [List.isEmpty_iff, h]),
    decide_eq_true_iff, gt_iff_lt, div_lt_iff₀ (by norm_num : (0 : ℚ) < 2)]
  constructor
  · intro hq
    have hlt : answers.length < answers.count correct_answer * 2 := by exact_mod_cast hq
    omega
  · intro hq
    exact_mod_cast (by omega : answers.length < answers.count correct_answer * 2)

/-! ### Claim theorems -/

/-- C1: for every non-empty list of extracted answers and every correct
answer, `calculate_majority_vote` is true exactly when the count of the
correct answer is strictly greater than half the length of the list, so
an exact half fails while 2 of 3 or 1 of 1 passes. -/
theorem calculate_majority_vote_strict_majority (answers : List String)
    (correct_answer : String) (h : answers ≠ []) :
    calculate_majority_vote answers correct_answer = true ↔
      2 * answers.count correct_answer > answers.length :=
  majority_vote_iff answers correct_answer h

/-- C1 witness: the majority decision on a concrete 2-of-3 list is
characterised by the strict count comparison. -/
theorem calculate_majority_vote_strict_majority_witness :
    calculate_majority_vote [("A"), ("A"), ("B")] ("A") = true ↔
      2 * ([("A"), ("A"), ("B")] : List String).count ("A")
        > ([("A"), ("A"), ("B")] : List String).length :=
  calculate_majority_vote_strict_majority [("A"), ("A"), ("B")] ("A") (by decide)

/-- C3: whenever the extracted-answer sequence is empty, the vote of
`eval_majority_vote` fails with the no-valid-answers error instead of
returning a boolean result. -/
theorem eval_majority_vote_empty_raises (model_outputs : List String) (answer : String)
    (h : extract_multiple_answers model_outputs = []) :
    eval_majority_vote model_outputs answer = Except.error EvalError.noValidAnswers := by
  simp [eval_majority_vote, h]

/-- C3 witness: voting with no model outputs at all fails with the
no-valid-answers error. -/
theorem eval_majority_vote_empty_raises_witness :
    eval_majority_vote [] ("A") = Except.error EvalError.noValidAnswers :=
  eval_majority_vote_empty_raises [] ("A") rfl

/-- C8: batch extraction equals mapping single extraction over the inputs
and keeping only the successes in order; its length never exceeds the
input length, and on a failing input it is strictly shorter. -/
theorem extract_multiple_answers_spec (outputs : List String) :
    extract_multiple_answers outputs
        = outputs.filterMap (fun o => (extract_single_answer o).toOption)
      ∧ (extract_multiple_answers outputs).length ≤ outputs.length
      ∧ (extract_multiple_answers [("")]).length < ([("")] : List String).length := by
  refine ⟨extract_multiple_answers_eq outputs, ?_, by decide⟩
  rw [extract_multiple_answers_eq outputs]
  exact List.length_filterMap_le _ _

/-- C9: a successful single extraction always returns one of the six
uppercase letters A-F. -/
theorem extract_single_answer_letter_set (output : String) (s : String)
    (h : extract_single_answer output = Except.ok s) :
    s = ("A") ∨ s = ("B") ∨ s = ("C") ∨ s = ("D") ∨ s = ("E") ∨ s = ("F") := by
  cases hs : searchAnswer (stripChars output.toList) with
  | none =>
    simp only [extract_single_answer, hs] at h
    cases h
  | some c =>
    simp only [extract_single_answer, hs, Except.ok.injEq] at h
    subst h
    obtain ⟨i, h1, _⟩ := searchAnswer_sound_idx _ hs
    obtain ⟨lit, ws, rest, _, _, _, hc⟩ := matchAt_sound h1
    rcases answer_letter_toUpper hc with hu | hu | hu | hu | hu | hu <;> rw [hu] <;> decide

/-- C9 witness: a concrete lowercase extraction lands in the letter set. -/
theorem extract_single_answer_letter_set_witness :
    ("B" : String) = ("A") ∨ ("B" : String) = ("B") ∨ ("B" : String) = ("C")
      ∨ ("B" : String) = ("D") ∨ ("B" : String) = ("E") ∨ ("B" : String) = ("F") :=
  extract_single_answer_letter_set ("Final Answer: b") ("B") (by decide)

/-- C7: a response text without the pattern makes single extraction fail
with the extraction error, and the batch form absorbs the failure: the
failing response is dropped and no error escapes the batch. -/
theorem extraction_failure_absorbed (output : String) (h : ¬ HasAnswerPattern output) :
    extract_single_answer output = Except.error AnswerExtractionError.noAnswerFound
      ∧ ∀ outputs : List String,
          extract_multiple_answers (output :: outputs) = extract_multiple_answers outputs := by
  have hnone : searchAnswer (stripChars output.toList) = none := by
    rw [searchAnswer_stripChars]
    cases hb : searchAnswer output.toList with
    | none => rfl
    | some a => exact absurd (hasAnswerPattern_iff.mpr (by rw [hb]; rfl)) h
  have hee : extract_single_answer output = Except.error AnswerExtractionError.noAnswerFound := by
    simp only [extract_single_answer, hnone]
  refine ⟨hee, ?_⟩
  intro outputs
  simp only [extract_multiple_answers, List.foldl_cons, hee]

/-- C7 witness: a concrete patternless text fails single extraction and is
dropped by the batch form without an error escaping. -/
theorem extraction_failure_absorbed_witness :
    extract_single_answer ("hello") = Except.error AnswerExtractionError.noAnswerFound
      ∧ extract_multiple_answers [("hello"), ("Final Answer: A")]
          = extract_multiple_answers [("Final Answer: A")] :=
  ⟨(extraction_failure_absorbed ("hello") (by rw [hasAnswerPattern_iff]; decide)).1,
   (extraction_failure_absorbed ("hello") (by rw [hasAnswerPattern_iff]; decide)).2
      [("Final Answer: A")]⟩

/-- C5 counterexample: the text below contains an occurrence of the
pattern capturing the letter B (starting at index 16), yet extraction
returns the letter of the earlier occurrence, A, not B - so extraction
does not return the letter of every contained occurrence. -/
theorem extract_single_answer_not_every_occurrence :
    OccursAt (String.toList ("Final Answer: a Final Answer: B")) 16 'B'
      ∧ extract_single_answer ("Final Answer: a Final Answer: B") = Except.ok ("A")
      ∧ extract_single_answer ("Final Answer: a Final Answer: B") ≠ Except.ok ("B") := by
  refine ⟨?_, by decide, by decide⟩
  exact ⟨String.toList ("Final Answer: a "), finalAnswerLit ++ [' '] ++ ['B'], [],
    by decide, by decide, finalAnswerLit, [' '], rfl, by decide, by decide, by decide⟩

/-- C5 (amended): a response text containing the pattern makes extraction
succeed, and the returned string is the uppercased letter captured by the
leftmost occurrence of the pattern. -/
theorem extract_single_answer_leftmost (s : String) (h : HasAnswerPattern s) :
    ∃ i c, OccursAt s.toList i c
      ∧ (∀ j c', OccursAt s.toList j c' → i ≤ j)
      ∧ extract_single_answer s = Except.ok (String.mk [c.toUpper]) := by
  have hsome : (searchAnswer s.toList).isSome = true := hasAnswerPattern_iff.mp h
  cases hb : searchAnswer s.toList with
  | none => rw [hb] at hsome; cases hsome
  | some a =>
    obtain ⟨i, h1, h2⟩ := searchAnswer_sound_idx s.toList hb
    have hle : i ≤ s.toList.length := by
      by_contra hgt
      push_neg at hgt
      rw [List.drop_eq_nil_of_le (le_of_lt hgt), matchAt_nil] at h1
      cases h1
    refine ⟨i, a, occursAt_iff_matchAt.mpr ⟨h1, hle⟩, ?_, ?_⟩
    · intro j c' hocc
      obtain ⟨hmj, _⟩ := occursAt_iff_matchAt.mp hocc
      by_contra hlt
      push_neg at hlt
      rw [h2 j hlt] at hmj
      cases hmj
    · simp only [extract_single_answer, searchAnswer_stripChars, hb]

/-- C5 witness: on a concrete text the leftmost (only) occurrence is
found and its letter is returned uppercased. -/
theorem extract_single_answer_leftmost_witness :
    ∃ i c, OccursAt (String.toList ("Final Answer: c")) i c
      ∧ (∀ j c', OccursAt (String.toList ("Final Answer: c")) j c' → i ≤ j)
      ∧ extract_single_answer ("Final Answer: c") = Except.ok (String.mk [c.toUpper]) :=
  extract_single_answer_leftmost ("Final Answer: c")
    ⟨0, 'c', [], finalAnswerLit ++ [' '] ++ ['c'], [],
      by decide, by decide, finalAnswerLit, [' '], rfl, by decide, by decide, by decide⟩

/-- C2: with at least one attempt configured, if every chat request made
fails then `predict` performs exactly `max_retries` chat requests and
raises the max-retries error with the error of the last request chained
as its cause; if the first request succeeds, `predict` returns its
content after that single request. -/
theorem predict_retry_contract (chatResult : Nat → Except ChatError String)
    (max_retries : Nat) (hpos : 1 ≤ max_retries) :
    ((∀ i, i < max_retries → ∃ e, chatResult i = Except.error e) →
        ∃ e, chatResult (max_retries - 1) = Except.error e
          ∧ predict chatResult max_retries
              = (PredictOutcome.maxRetriesExceeded (some e), max_retries))
      ∧ ∀ content, chatResult 0 = Except.ok content →
          predict chatResult max_retries = (PredictOutcome.success content, 1) := by
  constructor
  · intro hall
    rw [predict, List.range_eq_range']
    exact predictLoop_all_fail chatResult max_retries max_retries 0 (by omega) hpos
      (fun i _ hilt => hall i hilt)
  · intro content hok
    rw [predict]
    cases max_retries with
    | zero => omega
    | succ n =>
      rw [List.range_eq_range',
        show List.range' 0 (n + 1) = 0 :: List.range' 1 n from rfl]
      simp only [predictLoop, hok]

/-- C2 witness: three always-failing attempts give three chat calls and
the chained last error; an immediately successful first attempt returns
after one call. -/
theorem predict_retry_contract_witness :
    (∃ e, (Except.error ChatError.emptyResponse : Except ChatError String) = Except.error e
        ∧ predict (fun _ => Except.error ChatError.emptyResponse) 3
            = (PredictOutcome.maxRetriesExceeded (some e), 3))
      ∧ predict (fun _ => Except.ok ("hi")) 3 = (PredictOutcome.success ("hi"), 1) :=
  ⟨(predict_retry_contract (fun _ => Except.error ChatError.emptyResponse) 3 (by omega)).1
      (fun i _ => ⟨ChatError.emptyResponse, rfl⟩),
   (predict_retry_contract (fun _ => Except.ok ("hi")) 3 (by omega)).2 ("hi") rfl⟩

/-- C4: on a non-empty question list where every per-question vote
succeeds, `Benchmark.run` returns exactly the ratio of passed questions
over all questions times 100. -/
theorem benchmark_run_percentage (model : String → Nat → String) (num_responses : Nat)
    (qs : List Question) (hne : qs ≠ [])
    (hok : ∀ q ∈ qs,
      extract_multiple_answers (Benchmark.collect_responses model num_responses q) ≠ []) :
    Benchmark.run model num_responses qs
      = Except.ok
          (((qs.countP (fun q => Benchmark.question_passes model num_responses q) : ℚ)
            / (qs.length : ℚ)) * 100) := by
  simp only [Benchmark.run, total_score_all_ok model num_responses qs hok]
  rw [if_neg (by simp [List.length_eq_zero, hne])]

/-- C4 witness: two questions with one passing and one failing majority
vote give a final score of 50. -/
theorem benchmark_run_percentage_witness :
    Benchmark.run (fun _ _ => ("Final Answer: A")) 1
        [⟨1, ("p1"), ("A")⟩, ⟨2, ("p2"), ("B")⟩] = Except.ok 50 := by
  have h := benchmark_run_percentage (fun _ _ => ("Final Answer: A")) 1
    [⟨1, ("p1"), ("A")⟩, ⟨2, ("p2"), ("B")⟩] (by decide) (by decide)
  rw [h]
  have hp1 : Benchmark.question_passes (fun _ _ => ("Final Answer: A")) 1
      ⟨1, ("p1"), ("A")⟩ = true := by
    rw [Benchmark.question_passes,
      show extract_multiple_answers (Benchmark.collect_responses
        (fun _ _ => ("Final Answer: A")) 1 ⟨1, ("p1"), ("A")⟩) = [("A")] from by decide]
    exact (majority_vote_iff [("A")] ("A") (by decide)).mpr (by decide)
  have hp2 : Benchmark.question_passes (fun _ _ => ("Final Answer: A")) 1
      ⟨2, ("p2"), ("B")⟩ = false := by
    rw [Benchmark.question_passes,
      show extract_multiple_answers (Benchmark.collect_responses
        (fun _ _ => ("Final Answer: A")) 1 ⟨2, ("p2"), ("B")⟩) = [("A")] from by decide]
    rcases Bool.eq_false_or_eq_true (calculate_majority_vote [("A")] ("B")) with ht | hf
    · exact absurd ((majority_vote_iff [("A")] ("B") (by decide)).mp ht) (by decide)
    · exact hf
  have hc : List.countP
      (fun q => Benchmark.question_passes (fun _ _ => ("Final Answer: A")) 1 q)
      [⟨1, ("p1"), ("A")⟩, ⟨2, ("p2"), ("B")⟩] = 1 := by
    simp [List.countP_cons, hp1, hp2]
  rw [hc]
  norm_num

/-- C6: if any question in the run has every response fail extraction,
the no-valid-answers error propagates uncaught out of `Benchmark.run`,
aborting the whole run instead of scoring the question 0 and continuing. -/
theorem benchmark_run_aborts_on_extraction_wipeout (model : String → Nat → String)
    (num_responses : Nat) (qs : List Question)
    (h : ∃ q ∈ qs,
      extract_multiple_answers (Benchmark.collect_responses model num_responses q) = []) :
    Benchmark.run model num_responses qs = Except.error RunError.noValidAnswers := by
  simp only [Benchmark.run, total_score_error_of_wipeout model num_responses qs h]
  rfl

/-- C6 witness: a single question whose one response has no extractable
answer makes the whole run return the no-valid-answers error. -/
theorem benchmark_run_aborts_on_extraction_wipeout_witness :
    Benchmark.run (fun _ _ => ("nope")) 1 [⟨1, ("p"), ("A")⟩]
      = Except.error RunError.noValidAnswers :=
  benchmark_run_aborts_on_extraction_wipeout (fun _ _ => ("nope")) 1 [⟨1, ("p"), ("A")⟩]
    ⟨⟨1, ("p"), ("A")⟩, by decide, by decide⟩

/-- C10: on an empty question list `Benchmark.run` hits the unguarded
division by the question count and fails with the zero-division error
rather than returning a score. -/
theorem benchmark_run_empty_division_error (model : String → Nat → String)
    (num_responses : Nat) :
    Benchmark.run model num_responses [] = Except.error RunError.zeroDivision := rfl
